import Mathlib

/-!
# Identity and naming base classes of `cool::basis`

A shallow embedding of `include/cool/miscellaneous.h`: the classes
`identified` (a numerical identification drawn from one static counter) and
`named` (a textual name built on top of it).

* The static member `identified::m_counter` is threaded through explicitly:
  an operation that touches it takes the old counter and returns the new one.
* `unsigned long` is a natural number reduced modulo `2 ^ w`; the width `w`
  is fixed by the platform ABI (64 on LP64, 32 on LLP64 and ILP32), not by
  the header, so it is a parameter of every definition that increments.
* `std::string` is `String`.
* A member function that modifies `*this` returns the new `*this`; one that
  also modifies its argument returns the pair (new `*this`, new argument).
-/

/-! ## `identified` -/

/-- The data of `class identified`: its one non-static member. -/
structure identified where
  m_number : Nat
deriving DecidableEq, Repr

/-- Source: `unsigned long id() const { return m_number; }` -/
def identified.id (self : identified) : Nat :=
  self.m_number

/-- Source: `identified() : m_number(++m_counter)`; the pre-increment operator of
`std::atomic<unsigned long>` adds one modulo `2 ^ w` and yields the new value,
which initialises `m_number`. Returns the new counter and the new object. -/
def identified.ctor (w : Nat) (m_counter : Nat) : Nat × identified :=
  let incremented := (m_counter + 1) % 2 ^ w
  (incremented, ⟨incremented⟩)

/-- Source: `identified(const identified& original) = default`, memberwise copy. -/
def identified.ctor_copy (original : identified) : identified :=
  ⟨original.m_number⟩

/-- Source: `identified& operator=(const identified& original) = default`, memberwise
assignment; whatever `*this` held is overwritten. -/
def identified.assign_copy (_self original : identified) : identified :=
  ⟨original.m_number⟩

/-- Modelled from the spec: the body of `identified(identified&&)` is not in the
header. "Destination takes source's value; source's identity value becomes `0`",
as a value transfer followed by a reset of the source. Returns the new object
and the source as the move leaves it. -/
def identified.ctor_move (original : identified) : identified × identified :=
  (⟨original.m_number⟩, ⟨0⟩)

/-- Modelled from the spec: the body of `operator=(identified&&)` is not in the
header. Same transfer-then-reset protocol as the move constructor; the previous
value of `*this` is overwritten. Returns the new `*this` and the source as the
move leaves it. -/
def identified.assign_move (_self original : identified) : identified × identified :=
  (⟨original.m_number⟩, ⟨0⟩)

/-! ## `named` -/

/-- The data of `class named : public identified`. -/
structure named extends identified where
  m_name : String
  m_prefix : String
deriving DecidableEq, Repr

/-- The inherited `id()`. -/
def named.id (self : named) : Nat :=
  self.toidentified.id

/-- Source: `const std::string& name() const { return m_name; }` -/
def named.name (self : named) : String :=
  self.m_name

/-- Source: `void name(const std::string& name) { m_name = name; }` -/
def named.set_name (self : named) (name : String) : named :=
  ⟨self.toidentified, name, self.m_prefix⟩

/-- Modelled from the spec: the body of `std::string prefix() const` is not in
the header. "Returns the prefix recorded at construction time, regardless of
subsequent name changes": the member `m_prefix`. -/
def named.prefix (self : named) : String :=
  self.m_prefix

/-- Modelled from the spec: the decimal text of an identification, `str(k)`. -/
def decimal (k : Nat) : String :=
  Nat.repr k

/-- Modelled from the spec: the body of `named(const std::string&)` is not in
the header. The base subobject is default-constructed ("mints identity via
4.1"), the prefix is stored, and the name is `prefix + "-" + identity()`.
Returns the new counter and the new object. -/
def named.ctor (w : Nat) (m_counter : Nat) (pfx : String) : Nat × named :=
  let base := identified.ctor w m_counter
  (base.1, ⟨base.2, pfx ++ "-" ++ decimal base.2.id, pfx⟩)

/-- Source: `named(const named& original) = default`, memberwise copy. -/
def named.ctor_copy (original : named) : named :=
  ⟨identified.ctor_copy original.toidentified, original.m_name, original.m_prefix⟩

/-- Source: `named& operator=(const named& original) = default`, memberwise assignment. -/
def named.assign_copy (self original : named) : named :=
  ⟨identified.assign_copy self.toidentified original.toidentified,
    original.m_name, original.m_prefix⟩

/-- Modelled from the spec: the body of `named(named&& original)` is not in the
header. Identity, name and prefix go to the new object; the source is left with
identity `0` and the name `moved-0`. The prefix the source is left with is
unspecified, so it is the parameter `residue`. Returns the new object and the
source as the move leaves it. -/
def named.ctor_move (residue : String) (original : named) : named × named :=
  let base := identified.ctor_move original.toidentified
  (⟨base.1, original.m_name, original.m_prefix⟩, ⟨base.2, "moved-0", residue⟩)

/-- Modelled from the spec: the body of `named& operator=(named&&)` is not in
the header. As the move constructor, overwriting the previous `*this`. -/
def named.assign_move (residue : String) (self original : named) : named × named :=
  let base := identified.assign_move self.toidentified original.toidentified
  (⟨base.1, original.m_name, original.m_prefix⟩, ⟨base.2, "moved-0", residue⟩)

/-! ## A single-threaded program over many objects

The claims that speak of "any sequence of operations" need several objects and
the one counter side by side. A `Process` is the static counter together with the
objects created so far, in creation order; an object is referred to by its position. -/

/-- An object of a class that derives from `identified`, directly or through
`named`. -/
inductive Instance where
  | of_identified (x : identified)
  | of_named (x : named)
deriving DecidableEq, Repr

/-- The `id()` of an object of either kind. -/
def Instance.id : Instance → Nat
  | .of_identified x => x.id
  | .of_named x => x.id

/-- The `name()` of an object, when it has one. -/
def Instance.name? : Instance → Option String
  | .of_identified _ => none
  | .of_named x => some x.name

/-- The static counter and the objects constructed so far. -/
structure Process where
  m_counter : Nat
  objects : List Instance
deriving DecidableEq, Repr

/-- Modelled from the spec: the definition of the static member
`identified::m_counter` is not in the header; its "well-defined initial value
(0)" and no object yet. -/
def Process.fresh : Process :=
  ⟨0, []⟩

/-- One statement of a program that uses the two classes. Objects are named by
their position in `Process.objects`. -/
inductive Statement where
  /-- Statement `identified x;` -/
  | construct_identified
  /-- Statement `named x(pfx);` -/
  | construct_named (pfx : String)
  /-- Statement `T x(objects[src]);` -/
  | copy_construct (src : Nat)
  /-- Statement `T x(std::move(objects[src]));` -/
  | move_construct (src : Nat) (residue : String)
  /-- Statement `objects[dst] = objects[src];` -/
  | copy_assign (dst src : Nat)
  /-- Statement `objects[dst] = std::move(objects[src]);` -/
  | move_assign (dst src : Nat) (residue : String)
  /-- Statement `objects[obj].name(name);` -/
  | set_name (obj : Nat) (name : String)
deriving DecidableEq, Repr

/-- Whether a statement runs the default constructor of `identified`. -/
def Statement.constructs : Statement → Bool
  | .construct_identified => true
  | .construct_named _ => true
  | _ => false

/-- Run one statement. A statement that does not type-check (a position that
holds no object, a `named` operation on a plain `identified` or the reverse)
leaves the process as it is. A move writes the destination first and resets the
source afterwards. -/
def Process.exec (w : Nat) (s : Process) : Statement → Process
  | .construct_identified =>
      let r := identified.ctor w s.m_counter
      ⟨r.1, s.objects ++ [.of_identified r.2]⟩
  | .construct_named pfx =>
      let r := named.ctor w s.m_counter pfx
      ⟨r.1, s.objects ++ [.of_named r.2]⟩
  | .copy_construct src =>
      match s.objects[src]? with
      | some (.of_identified x) =>
          ⟨s.m_counter, s.objects ++ [.of_identified (identified.ctor_copy x)]⟩
      | some (.of_named x) =>
          ⟨s.m_counter, s.objects ++ [.of_named (named.ctor_copy x)]⟩
      | none => s
  | .move_construct src residue =>
      match s.objects[src]? with
      | some (.of_identified x) =>
          let r := identified.ctor_move x
          ⟨s.m_counter, s.objects.set src (.of_identified r.2) ++ [.of_identified r.1]⟩
      | some (.of_named x) =>
          let r := named.ctor_move residue x
          ⟨s.m_counter, s.objects.set src (.of_named r.2) ++ [.of_named r.1]⟩
      | none => s
  | .copy_assign dst src =>
      match s.objects[dst]?, s.objects[src]? with
      | some (.of_identified d), some (.of_identified x) =>
          ⟨s.m_counter, s.objects.set dst (.of_identified (identified.assign_copy d x))⟩
      | some (.of_named d), some (.of_named x) =>
          ⟨s.m_counter, s.objects.set dst (.of_named (named.assign_copy d x))⟩
      | _, _ => s
  | .move_assign dst src residue =>
      match s.objects[dst]?, s.objects[src]? with
      | some (.of_identified d), some (.of_identified x) =>
          let r := identified.assign_move d x
          ⟨s.m_counter,
            (s.objects.set dst (.of_identified r.1)).set src (.of_identified r.2)⟩
      | some (.of_named d), some (.of_named x) =>
          let r := named.assign_move residue d x
          ⟨s.m_counter, (s.objects.set dst (.of_named r.1)).set src (.of_named r.2)⟩
      | _, _ => s
  | .set_name obj name =>
      match s.objects[obj]? with
      | some (.of_named x) => ⟨s.m_counter, s.objects.set obj (.of_named (x.set_name name))⟩
      | _ => s

/-- Run a sequence of statements, first to last. -/
def Process.run (w : Nat) (s : Process) (prog : List Statement) : Process :=
  prog.foldl (Process.exec w) s

/-- The `id()` of the object created last. -/
def Process.newest_id (s : Process) : Option Nat :=
  s.objects.getLast?.map Instance.id

/-- The number of default constructions in a program. -/
def constructions (prog : List Statement) : Nat :=
  prog.countP Statement.constructs

/-- The `id()`s of the objects a program created, in creation order: those of the
objects that were not there before it ran. -/
def Process.minted (w : Nat) (s : Process) (prog : List Statement) : List Nat :=
  ((s.run w prog).objects.drop s.objects.length).map Instance.id

/-- The `name()` of the object created last, when it is a `named`. -/
def Process.newest_name (s : Process) : Option String :=
  s.objects.getLast?.bind Instance.name?

/-- Whether a statement is a call of `name(newName)`. -/
def Statement.renames : Statement → Bool
  | .set_name _ _ => true
  | _ => false

/-- The name is the one the constructor synthesises from what `prefix()` and `id()`
return now. -/
def named.default_named (x : named) : Prop :=
  x.name = named.prefix x ++ "-" ++ decimal x.id

instance (x : named) : Decidable x.default_named := by
  unfold named.default_named
  infer_instance

/-- The state a move leaves its source in: identity `0` and the name `moved-0`. -/
def named.vacated (x : named) : Prop :=
  x.id = 0 ∧ x.name = "moved-0"

instance (x : named) : Decidable x.vacated := by
  unfold named.vacated
  infer_instance

/-- A `named` object carries the default name or is vacated; nothing is asked of a
plain `identified`. -/
def Instance.name_ok : Instance → Prop
  | .of_identified _ => True
  | .of_named x => x.default_named ∨ x.vacated

/-- Whether a statement may change the object at position `i`: a `name(...)` call on
it, an assignment to it, by copy or by move, or a move from it. Being copied from does
not change an object. -/
def Statement.modifies (i : Nat) : Statement → Bool
  | .construct_identified => false
  | .construct_named _ => false
  | .copy_construct _ => false
  | .move_construct src _ => src == i
  | .copy_assign dst _ => dst == i
  | .move_assign dst src _ => dst == i || src == i
  | .set_name obj _ => obj == i

/-- The value of a decimal digit character. -/
def digit_value (c : Char) : Nat :=
  c.toNat - 48

/-- Read a list of decimal digits, most significant first. -/
def read_decimal (l : List Char) : Nat :=
  l.foldl (fun acc c => 10 * acc + digit_value c) 0

/-! ## Lemmas on the counter -/

theorem Process.exec_counter (w : Nat) (s : Process) (st : Statement) :
    (s.exec w st).m_counter =
      if st.constructs then (s.m_counter + 1) % 2 ^ w else s.m_counter := by
  cases st <;> simp only [Process.exec, Statement.constructs] <;>
    first
    | rfl
    | (split <;> simp)

theorem Process.run_nil (w : Nat) (s : Process) : s.run w [] = s := rfl

theorem Process.run_cons (w : Nat) (s : Process) (st : Statement) (prog : List Statement) :
    s.run w (st :: prog) = (s.exec w st).run w prog := rfl

theorem Process.run_append (w : Nat) (s : Process) (p q : List Statement) :
    s.run w (p ++ q) = (s.run w p).run w q := by
  simp [Process.run, List.foldl_append]

/-- Statements that are not default constructions leave the counter alone; each default
construction adds one modulo `2 ^ w`. -/
theorem Process.run_counter_mod (w : Nat) (prog : List Statement) (s : Process) :
    (s.run w prog).m_counter % 2 ^ w = (s.m_counter + constructions prog) % 2 ^ w := by
  induction prog generalizing s with
  | nil => simp [Process.run_nil, constructions]
  | cons st prog ih =>
    rw [Process.run_cons, ih, Process.exec_counter]
    cases h : st.constructs
    · simp [constructions, List.countP_cons, h]
    · simp only [constructions, List.countP_cons, h, if_true]
      rw [Nat.add_mod, Nat.mod_mod, ← Nat.add_mod]
      congr 1
      omega

/-- A default construction of either kind appends one object whose `id()` is the
incremented counter. -/
theorem Process.exec_constructs (w : Nat) (s : Process) (st : Statement)
    (h : st.constructs = true) :
    ∃ obj : Instance, s.exec w st = ⟨(s.m_counter + 1) % 2 ^ w, s.objects ++ [obj]⟩ ∧
      obj.id = (s.m_counter + 1) % 2 ^ w := by
  cases st <;> simp [Statement.constructs] at h
  · exact ⟨_, rfl, rfl⟩
  · exact ⟨_, rfl, rfl⟩

theorem Process.newest_id_exec_constructs (w : Nat) (s : Process) (st : Statement)
    (h : st.constructs = true) :
    (s.exec w st).newest_id = some ((s.m_counter + 1) % 2 ^ w) := by
  obtain ⟨obj, hs, hid⟩ := Process.exec_constructs w s st h
  simp [hs, Process.newest_id, hid]

/-- A copy construction from an existing object appends an object with the same `id()`
and leaves the counter and the objects already there as they are. -/
theorem Process.exec_copy_construct (w : Nat) (s : Process) (src : Nat) (o : Instance)
    (h : s.objects[src]? = some o) :
    ∃ obj : Instance, s.exec w (.copy_construct src) = ⟨s.m_counter, s.objects ++ [obj]⟩ ∧
      obj.id = o.id := by
  cases o with
  | of_identified x =>
    exact ⟨.of_identified (identified.ctor_copy x), by simp [Process.exec, h], rfl⟩
  | of_named x =>
    exact ⟨.of_named (named.ctor_copy x), by simp [Process.exec, h], rfl⟩

theorem getElem?_append_length_add {α : Type} (l l' : List α) (i : Nat) :
    (l ++ l')[l.length + i]? = l'[i]? := by
  rw [List.getElem?_append_right (by omega)]
  simp

theorem succ_mod_ne_self (m c : Nat) (hm : 1 < m) : (c + 1) % m ≠ c % m := by
  intro h
  have h1 : m ∣ (c + 1) - c := (Nat.modEq_iff_dvd' (Nat.le_succ c)).mp h.symm
  have h2 : m ∣ 1 := by simpa using h1
  have h3 : m = 1 := Nat.dvd_one.mp h2
  omega

theorem Process.exec_counter_lt (w : Nat) (s : Process) (st : Statement)
    (h : s.m_counter < 2 ^ w) : (s.exec w st).m_counter < 2 ^ w := by
  rw [Process.exec_counter]
  split
  · exact Nat.mod_lt _ (Nat.two_pow_pos w)
  · exact h

theorem Process.run_counter_lt (w : Nat) (prog : List Statement) (s : Process)
    (h : s.m_counter < 2 ^ w) : (s.run w prog).m_counter < 2 ^ w := by
  induction prog generalizing s with
  | nil => exact h
  | cons st prog ih => exact ih _ (Process.exec_counter_lt w s st h)

/-- While the counter does not wrap it is the plain count of default constructions. -/
theorem Process.run_counter_of_lt (w : Nat) (prog : List Statement) (s : Process)
    (h : s.m_counter + constructions prog < 2 ^ w) :
    (s.run w prog).m_counter = s.m_counter + constructions prog := by
  have hlt := Process.run_counter_lt w prog s (by omega)
  have hmod := Process.run_counter_mod w prog s
  rwa [Nat.mod_eq_of_lt hlt, Nat.mod_eq_of_lt h] at hmod

/-- The `id()` handed out by a default construction that follows a program. -/
theorem Process.newest_id_after_run (w : Nat) (prog : List Statement) (s : Process)
    (st : Statement) (h : st.constructs = true) :
    ((s.run w prog).exec w st).newest_id =
      some ((s.m_counter + constructions prog + 1) % 2 ^ w) := by
  rw [Process.newest_id_exec_constructs w _ st h, Nat.add_mod, Process.run_counter_mod,
    ← Nat.add_mod]

theorem constructions_replicate (n : Nat) :
    constructions (List.replicate n Statement.construct_identified) = n := by
  simp [constructions, List.countP_replicate, Statement.constructs]

/-- A program of default constructions only appends one object per statement, the
`i`-th of them with the counter advanced `i + 1` times as its `id()`. -/
theorem Process.run_constructions (w : Nat) (prog : List Statement) (s : Process)
    (hall : ∀ st ∈ prog, st.constructs = true) :
    ∃ news : List Instance, (s.run w prog).objects = s.objects ++ news ∧
      news.map Instance.id =
        (List.range prog.length).map (fun i => (s.m_counter + 1 + i) % 2 ^ w) := by
  induction prog generalizing s with
  | nil => exact ⟨[], by simp [Process.run_nil], by simp⟩
  | cons st prog ih =>
    obtain ⟨obj, hs, hid⟩ := Process.exec_constructs w s st (hall st (by simp))
    obtain ⟨news, hobjs, hids⟩ := ih (s.exec w st) (fun t ht => hall t (by simp [ht]))
    refine ⟨obj :: news, ?_, ?_⟩
    · rw [Process.run_cons, hobjs, hs]
      simp
    · rw [List.length_cons, List.range_succ_eq_map, List.map_cons, List.map_cons, hids, hid,
        List.map_map, hs]
      congr 1
      apply List.map_congr_left
      intro i _
      show ((s.m_counter + 1) % 2 ^ w + 1 + i) % 2 ^ w = (s.m_counter + 1 + (i + 1)) % 2 ^ w
      rw [Nat.add_assoc, Nat.mod_add_mod, Nat.add_comm 1 i]

theorem Process.minted_constructions (w : Nat) (prog : List Statement) (s : Process)
    (hall : ∀ st ∈ prog, st.constructs = true) :
    s.minted w prog =
      (List.range prog.length).map (fun i => (s.m_counter + 1 + i) % 2 ^ w) := by
  obtain ⟨news, hobjs, hids⟩ := Process.run_constructions w prog s hall
  rw [Process.minted, hobjs, List.drop_left, hids]

/-- Fewer than `m` consecutive numbers stay distinct modulo `m`. -/
theorem add_mod_inj (m c i j : Nat) (hi : i < m) (hj : j < m)
    (h : (c + i) % m = (c + j) % m) : i = j := by
  have h1 : Nat.ModEq m i j := Nat.ModEq.add_left_cancel' c h
  have h2 : i % m = j % m := h1
  rwa [Nat.mod_eq_of_lt hi, Nat.mod_eq_of_lt hj] at h2

/-! ## Lemmas on renaming -/

/-- Any number of `name(...)` calls leaves the identification and the stored prefix. -/
theorem named.foldl_set_name_frame (names : List String) (x : named) :
    (names.foldl named.set_name x).toidentified = x.toidentified ∧
      named.m_prefix (names.foldl named.set_name x) = named.m_prefix x := by
  induction names generalizing x with
  | nil => exact ⟨rfl, rfl⟩
  | cons n names ih =>
    have h := ih (x.set_name n)
    exact ⟨h.1, h.2⟩

/-! ## Lemmas on the decimal text and the default name -/

theorem digit_value_digitChar (m : Nat) (h : m < 10) : digit_value (Nat.digitChar m) = m := by
  interval_cases m <;> decide

theorem digitChar_ne_dash (m : Nat) (h : m < 10) : Nat.digitChar m ≠ '-' := by
  interval_cases m <;> decide

theorem foldl_toDigitsCore (fuel : Nat) : ∀ (n : Nat) (ds : List Char), n < fuel →
    List.foldl (fun acc c => 10 * acc + digit_value c) 0 (Nat.toDigitsCore 10 fuel n ds) =
      List.foldl (fun acc c => 10 * acc + digit_value c) n ds := by
  induction fuel with
  | zero => intro n ds h; omega
  | succ fuel ih =>
    intro n ds h
    rw [Nat.toDigitsCore]
    split
    · rename_i h0
      rw [List.foldl_cons, digit_value_digitChar _ (Nat.mod_lt _ (by decide))]
      congr 1
      omega
    · rename_i h0
      rw [ih (n / 10) _ (by omega), List.foldl_cons,
        digit_value_digitChar _ (Nat.mod_lt _ (by decide))]
      congr 1
      omega

theorem read_decimal_repr (n : Nat) : read_decimal (Nat.repr n).data = n := by
  show read_decimal (Nat.toDigits 10 n) = n
  rw [read_decimal, Nat.toDigits, foldl_toDigitsCore _ _ _ (Nat.lt_succ_self n)]
  rfl

theorem decimal_injective (a b : Nat) (h : decimal a = decimal b) : a = b := by
  have := congrArg (fun s : String => read_decimal s.data) h
  simpa [decimal, read_decimal_repr] using this

theorem mem_toDigitsCore (fuel : Nat) : ∀ (n : Nat) (ds : List Char) (c : Char),
    c ∈ Nat.toDigitsCore 10 fuel n ds → c ∈ ds ∨ c ≠ '-' := by
  induction fuel with
  | zero => intro n ds c h; exact Or.inl h
  | succ fuel ih =>
    intro n ds c h
    rw [Nat.toDigitsCore] at h
    split at h
    · rcases List.mem_cons.mp h with h | h
      · exact Or.inr (h ▸ digitChar_ne_dash _ (Nat.mod_lt _ (by decide)))
      · exact Or.inl h
    · rcases ih _ _ _ h with h | h
      · rcases List.mem_cons.mp h with h | h
        · exact Or.inr (h ▸ digitChar_ne_dash _ (Nat.mod_lt _ (by decide)))
        · exact Or.inl h
      · exact Or.inr h

theorem dash_not_mem_decimal (k : Nat) : '-' ∉ (decimal k).data := by
  intro h
  have h' : '-' ∈ Nat.toDigitsCore 10 (k + 1) k [] := h
  rcases mem_toDigitsCore _ _ _ _ h' with h | h
  · simp at h
  · exact h rfl

/-- A list splits in one way only at the last occurrence of a separator. -/
theorem append_sep_inj {α : Type} (a : α) : ∀ (l1 l2 r1 r2 : List α), a ∉ r1 → a ∉ r2 →
    l1 ++ a :: r1 = l2 ++ a :: r2 → l1 = l2 ∧ r1 = r2 := by
  intro l1 l2 r1 r2 h1 h2 h
  have hr := congrArg List.reverse h
  simp only [List.reverse_append, List.reverse_cons, List.append_assoc,
    List.singleton_append] at hr
  have key : ∀ (x y u v : List α), a ∉ x → a ∉ y → x ++ a :: u = y ++ a :: v →
      x = y ∧ u = v := by
    intro x
    induction x with
    | nil =>
      intro y u v _ hy e
      cases y with
      | nil => exact ⟨rfl, by simpa using e⟩
      | cons b y =>
        simp only [List.nil_append, List.cons_append, List.cons.injEq] at e
        exact absurd (e.1 ▸ List.mem_cons_self _ _) hy
    | cons b x ihx =>
      intro y u v hx hy e
      cases y with
      | nil =>
        simp only [List.nil_append, List.cons_append, List.cons.injEq] at e
        exact absurd (e.1 ▸ List.mem_cons_self _ _) hx
      | cons b' y =>
        simp only [List.cons_append, List.cons.injEq] at e
        obtain ⟨e1, e2⟩ := ihx y u v (fun m => hx (List.mem_cons_of_mem _ m))
          (fun m => hy (List.mem_cons_of_mem _ m)) e.2
        exact ⟨by rw [e.1, e1], e2⟩
  obtain ⟨e1, e2⟩ := key r1.reverse r2.reverse l1.reverse l2.reverse
    (by simpa using h1) (by simpa using h2) hr
  exact ⟨List.reverse_injective e2, List.reverse_injective e1⟩

/-- The default name determines both the prefix and the identification. -/
theorem default_name_injective (p q : String) (j k : Nat)
    (h : p ++ "-" ++ decimal j = q ++ "-" ++ decimal k) : p = q ∧ j = k := by
  have hd := congrArg String.data h
  simp only [String.data_append] at hd
  rw [List.append_assoc, List.append_assoc, List.singleton_append,
    List.singleton_append] at hd
  obtain ⟨e1, e2⟩ := append_sep_inj '-' _ _ _ _ (dash_not_mem_decimal j)
    (dash_not_mem_decimal k) hd
  exact ⟨String.ext e1, decimal_injective j k (String.ext e2)⟩

/-! ## Lemmas on single statements -/

theorem lt_length_of_getElem? {α : Type} (l : List α) (i : Nat) (x : α)
    (h : l[i]? = some x) : i < l.length := by
  by_contra hn
  rw [List.getElem?_eq_none (by omega)] at h
  cases h

theorem getElem?_set_same {α : Type} (l : List α) (i : Nat) (x a : α)
    (h : l[i]? = some x) : (l.set i a)[i]? = some a := by
  have hi := lt_length_of_getElem? l i x h
  simp [hi]

theorem getElem?_set_other {α : Type} (l : List α) (i j : Nat) (a : α) (h : i ≠ j) :
    (l.set i a)[j]? = l[j]? := by
  simp [List.getElem?_set_ne h]

theorem named.ctor_copy_eq (a : named) : named.ctor_copy a = a := rfl

theorem named.assign_copy_eq (d a : named) : named.assign_copy d a = a := rfl

theorem Process.exec_copy_construct_named (w : Nat) (s : Process) (src : Nat) (a : named)
    (ha : s.objects[src]? = some (.of_named a)) :
    s.exec w (.copy_construct src) = ⟨s.m_counter, s.objects ++ [.of_named a]⟩ := by
  simp [Process.exec, ha, named.ctor_copy_eq]

theorem Process.exec_copy_assign_named (w : Nat) (s : Process) (dst src : Nat) (d a : named)
    (hd : s.objects[dst]? = some (.of_named d)) (ha : s.objects[src]? = some (.of_named a)) :
    s.exec w (.copy_assign dst src) = ⟨s.m_counter, s.objects.set dst (.of_named a)⟩ := by
  simp [Process.exec, hd, ha, named.assign_copy_eq]

theorem Process.exec_move_construct_named (w : Nat) (s : Process) (src : Nat) (r : String)
    (a : named) (ha : s.objects[src]? = some (.of_named a)) :
    s.exec w (.move_construct src r) =
      ⟨s.m_counter, s.objects.set src (.of_named ⟨⟨0⟩, "moved-0", r⟩) ++ [.of_named a]⟩ := by
  simp only [Process.exec, ha]
  rfl

theorem Process.exec_move_assign_named (w : Nat) (s : Process) (dst src : Nat) (r : String)
    (d a : named) (hd : s.objects[dst]? = some (.of_named d))
    (ha : s.objects[src]? = some (.of_named a)) :
    s.exec w (.move_assign dst src r) =
      ⟨s.m_counter,
        (s.objects.set dst (.of_named a)).set src (.of_named ⟨⟨0⟩, "moved-0", r⟩)⟩ := by
  simp only [Process.exec, hd, ha]
  rfl

/-- A call of `name(...)` on one object leaves every other object as it is. -/
theorem Process.exec_set_name_frame (w : Nat) (s : Process) (k j : Nat) (str : String)
    (h : k ≠ j) : (s.exec w (.set_name k str)).objects[j]? = s.objects[j]? := by
  simp only [Process.exec]
  split
  · exact getElem?_set_other _ _ _ _ h
  · rfl

/-- A move construction leaves every object but its source as it is. -/
theorem Process.exec_move_construct_frame (w : Nat) (s : Process) (k j : Nat) (r : String)
    (h : k ≠ j) (hj : j < s.objects.length) :
    (s.exec w (.move_construct k r)).objects[j]? = s.objects[j]? := by
  simp only [Process.exec]
  split
  · rw [List.getElem?_append_left (by simpa using hj)]
    exact getElem?_set_other _ _ _ _ h
  · rw [List.getElem?_append_left (by simpa using hj)]
    exact getElem?_set_other _ _ _ _ h
  · rfl

/-- A move assignment leaves every object but its destination and its source as it is. -/
theorem Process.exec_move_assign_frame (w : Nat) (s : Process) (d k j : Nat) (r : String)
    (hd : d ≠ j) (hk : k ≠ j) :
    (s.exec w (.move_assign d k r)).objects[j]? = s.objects[j]? := by
  simp only [Process.exec]
  split
  · rw [getElem?_set_other _ _ _ _ hk, getElem?_set_other _ _ _ _ hd]
  · rw [getElem?_set_other _ _ _ _ hk, getElem?_set_other _ _ _ _ hd]
  · rfl

/-! ## Lemmas on names at construction -/

theorem Process.newest_name_exec_construct_named (w : Nat) (s : Process) (p : String) :
    (s.exec w (.construct_named p)).newest_name =
      some (p ++ "-" ++ decimal ((s.m_counter + 1) % 2 ^ w)) := by
  simp [Process.exec, Process.newest_name, Instance.name?, named.ctor, identified.ctor,
    named.name, identified.id]

theorem Process.newest_name_after_run (w : Nat) (prog : List Statement) (s : Process)
    (p : String) :
    ((s.run w prog).exec w (.construct_named p)).newest_name =
      some (p ++ "-" ++ decimal ((s.m_counter + constructions prog + 1) % 2 ^ w)) := by
  rw [Process.newest_name_exec_construct_named, Nat.add_mod, Process.run_counter_mod,
    ← Nat.add_mod]

/-- Two default constructions fewer than `2 ^ w` constructions apart hand out different
identities. -/
theorem Process.newest_id_ne_of_close (w : Nat) (s : Process) (first later : Statement)
    (between : List Statement) (hfirst : first.constructs = true)
    (hlater : later.constructs = true) (hclose : constructions between + 1 < 2 ^ w) :
    (s.exec w first).newest_id ≠
      (((s.exec w first).run w between).exec w later).newest_id := by
  rw [Process.newest_id_after_run w between _ later hlater,
    Process.newest_id_exec_constructs w s first hfirst, Process.exec_counter, hfirst,
    if_pos rfl]
  intro h
  have h1 := Option.some.inj h
  have h2 : ((s.m_counter + 1) % 2 ^ w + 0) % 2 ^ w =
      ((s.m_counter + 1) % 2 ^ w + (constructions between + 1)) % 2 ^ w := by
    rw [Nat.add_zero, Nat.mod_mod, ← Nat.add_assoc]
    exact h1
  have h3 := add_mod_inj (2 ^ w) _ 0 (constructions between + 1) (by omega) hclose h2
  omega

/-! ## Lemmas on the default-name invariant -/

theorem Instance.name_ok_of_getElem? (l : List Instance) (i : Nat) (o : Instance)
    (hl : ∀ x ∈ l, x.name_ok) (h : l[i]? = some o) : o.name_ok :=
  hl o (List.getElem?_mem h)

theorem Instance.name_ok_set (l : List Instance) (i : Nat) (o : Instance)
    (hl : ∀ x ∈ l, x.name_ok) (ho : o.name_ok) : ∀ x ∈ l.set i o, x.name_ok := by
  intro x hx
  rcases List.mem_or_eq_of_mem_set hx with h | h
  · exact hl x h
  · exact h ▸ ho

theorem Instance.name_ok_concat (l : List Instance) (o : Instance)
    (hl : ∀ x ∈ l, x.name_ok) (ho : o.name_ok) : ∀ x ∈ l ++ [o], x.name_ok := by
  intro x hx
  rcases List.mem_append.mp hx with h | h
  · exact hl x h
  · exact (List.mem_singleton.mp h) ▸ ho

theorem Instance.name_ok_vacated (r : String) :
    (Instance.of_named ⟨⟨0⟩, "moved-0", r⟩).name_ok :=
  Or.inr ⟨rfl, rfl⟩

/-- Every statement other than `name(...)` keeps each `named` object default-named or
vacated. -/
theorem Process.exec_name_ok (w : Nat) (s : Process) (st : Statement)
    (hst : st.renames = false) (hs : ∀ o ∈ s.objects, o.name_ok) :
    ∀ o ∈ (s.exec w st).objects, o.name_ok := by
  cases st with
  | construct_identified =>
    exact Instance.name_ok_concat _ _ hs trivial
  | construct_named pfx =>
    exact Instance.name_ok_concat _ _ hs (Or.inl rfl)
  | copy_construct src =>
    simp only [Process.exec]
    split
    · exact Instance.name_ok_concat _ _ hs trivial
    · rename_i x hx
      exact Instance.name_ok_concat _ _ hs (Instance.name_ok_of_getElem? _ _ _ hs hx)
    · exact hs
  | move_construct src r =>
    simp only [Process.exec]
    split
    · exact Instance.name_ok_concat _ _ (Instance.name_ok_set _ _ _ hs trivial) trivial
    · rename_i x hx
      exact Instance.name_ok_concat _ _
        (Instance.name_ok_set _ _ _ hs (Instance.name_ok_vacated r))
        (Instance.name_ok_of_getElem? _ _ _ hs hx)
    · exact hs
  | copy_assign dst src =>
    simp only [Process.exec]
    split
    · exact Instance.name_ok_set _ _ _ hs trivial
    · rename_i d x hd hx
      exact Instance.name_ok_set _ _ _ hs (Instance.name_ok_of_getElem? _ _ _ hs hx)
    · exact hs
  | move_assign dst src r =>
    simp only [Process.exec]
    split
    · exact Instance.name_ok_set _ _ _ (Instance.name_ok_set _ _ _ hs trivial) trivial
    · rename_i d x hd hx
      exact Instance.name_ok_set _ _ _
        (Instance.name_ok_set _ _ _ hs (Instance.name_ok_of_getElem? _ _ _ hs hx))
        (Instance.name_ok_vacated r)
    · exact hs
  | set_name obj name => simp [Statement.renames] at hst

theorem Process.run_name_ok (w : Nat) (prog : List Statement) (s : Process)
    (hprog : ∀ st ∈ prog, st.renames = false) (hs : ∀ o ∈ s.objects, o.name_ok) :
    ∀ o ∈ (s.run w prog).objects, o.name_ok := by
  induction prog generalizing s with
  | nil => exact hs
  | cons st prog ih =>
    exact ih (s.exec w st) (fun t ht => hprog t (by simp [ht]))
      (Process.exec_name_ok w s st (hprog st (by simp)) hs)

/-- A vacated object carries the default name exactly when its stored prefix is `moved`. -/
theorem named.vacated_default_named_iff (x : named) (hx : x.vacated) :
    x.default_named ↔ named.prefix x = "moved" := by
  obtain ⟨hid, hname⟩ := hx
  unfold named.default_named
  rw [hid, hname]
  constructor
  · intro h
    have h' : "moved" ++ "-" ++ decimal 0 = named.prefix x ++ "-" ++ decimal 0 := by
      rw [← h]
      decide
    exact (default_name_injective _ _ _ _ h').1.symm
  · intro h
    rw [h]
    decide

/-! ## Lemmas on objects a program leaves alone -/

theorem Process.exec_length_le (w : Nat) (s : Process) (st : Statement) :
    s.objects.length ≤ (s.exec w st).objects.length := by
  cases st <;> simp only [Process.exec] <;> (try split) <;> simp

theorem Process.run_length_le (w : Nat) (prog : List Statement) (s : Process) :
    s.objects.length ≤ (s.run w prog).objects.length := by
  induction prog generalizing s with
  | nil => exact Nat.le_refl _
  | cons st prog ih =>
    exact Nat.le_trans (Process.exec_length_le w s st) (ih (s.exec w st))

/-- A statement that does not modify the object at position `i` leaves it as it is. -/
theorem Process.exec_frame (w : Nat) (s : Process) (st : Statement) (i : Nat)
    (hst : st.modifies i = false) (hi : i < s.objects.length) :
    (s.exec w st).objects[i]? = s.objects[i]? := by
  cases st with
  | construct_identified =>
    simp only [Process.exec]
    exact List.getElem?_append_left hi
  | construct_named pfx =>
    simp only [Process.exec]
    exact List.getElem?_append_left hi
  | copy_construct src =>
    simp only [Process.exec]
    split
    · exact List.getElem?_append_left hi
    · exact List.getElem?_append_left hi
    · rfl
  | move_construct src r =>
    have hne : src ≠ i := by simpa [Statement.modifies] using hst
    exact Process.exec_move_construct_frame w s src i r hne hi
  | copy_assign dst src =>
    have hne : dst ≠ i := by simpa [Statement.modifies] using hst
    simp only [Process.exec]
    split
    · exact getElem?_set_other _ _ _ _ hne
    · exact getElem?_set_other _ _ _ _ hne
    · rfl
  | move_assign dst src r =>
    have hne : dst ≠ i ∧ src ≠ i := by simpa [Statement.modifies] using hst
    exact Process.exec_move_assign_frame w s dst src i r hne.1 hne.2
  | set_name obj name =>
    have hne : obj ≠ i := by simpa [Statement.modifies] using hst
    exact Process.exec_set_name_frame w s obj i name hne

theorem Process.run_frame (w : Nat) (prog : List Statement) (s : Process) (i : Nat)
    (hprog : ∀ st ∈ prog, st.modifies i = false) (hi : i < s.objects.length) :
    (s.run w prog).objects[i]? = s.objects[i]? := by
  induction prog generalizing s with
  | nil => rfl
  | cons st prog ih =>
    rw [Process.run_cons, ih (s.exec w st) (fun t ht => hprog t (by simp [ht]))
      (Nat.lt_of_lt_of_le hi (Process.exec_length_le w s st)),
      Process.exec_frame w s st i (hprog st (by simp)) hi]

/-- The object a `named` construction creates, at the first free position. -/
theorem Process.exec_construct_named_last (w : Nat) (s : Process) (p : String) :
    (s.exec w (.construct_named p)).objects[s.objects.length]? =
      some (.of_named (named.ctor w s.m_counter p).2) ∧
    (s.exec w (.construct_named p)).objects.length = s.objects.length + 1 := by
  constructor
  · have h0 := getElem?_append_length_add s.objects
      [Instance.of_named (named.ctor w s.m_counter p).2] 0
    rw [Nat.add_zero] at h0
    exact h0
  · simp [Process.exec]

/-- Default names given fewer than `2 ^ w` default constructions apart differ. -/
theorem Process.default_names_ne_of_close (w : Nat) (s : Process) (p q : String)
    (between : List Statement) (hclose : constructions between + 1 < 2 ^ w) :
    p ++ "-" ++ decimal ((s.m_counter + 1) % 2 ^ w) ≠
      q ++ "-" ++
        decimal ((((s.exec w (.construct_named p)).run w between).m_counter + 1) % 2 ^ w) := by
  intro hname
  have hk := (default_name_injective _ _ _ _ hname).2
  have hne := Process.newest_id_ne_of_close w s (.construct_named p) (.construct_named q)
    between rfl rfl hclose
  rw [Process.newest_id_exec_constructs w _ (.construct_named q) rfl,
    Process.newest_id_exec_constructs w s (.construct_named p) rfl] at hne
  exact hne (congrArg some hk)

/-! ## Claims -/

/-- Claim C1, refuted as stated: when a 64-bit counter holds its maximum
`2 ^ 64 - 1`, the default constructor leaves the counter at 0 and gives the new
instance `id() = 0`, not `2 ^ 64 - 1 + 1`. -/
theorem identified_ctor_wraps_at_maximum :
    (identified.ctor 64 (2 ^ 64 - 1)).1 = 0 ∧
    (identified.ctor 64 (2 ^ 64 - 1)).2.id = 0 ∧
    (identified.ctor 64 (2 ^ 64 - 1)).1 ≠ 2 ^ 64 - 1 + 1 ∧
    (identified.ctor 64 (2 ^ 64 - 1)).2.id ≠ 2 ^ 64 - 1 + 1 := by
  decide

/-- Claim C1, amended: for every value `c` of the shared counter, the default constructor
of `identified` leaves the counter at `(c + 1) mod 2 ^ w`, the sum `++` forms on an
`unsigned long` of `w` bits, and gives the new instance that same value as `id()`: the
instance takes the post-increment value, not the pre-increment one. The value is
`c + 1` for every `c` below the maximum `2 ^ w - 1`. -/
theorem identified_ctor_takes_post_increment (w c : Nat) :
    (identified.ctor w c).1 = (c + 1) % 2 ^ w ∧
    (identified.ctor w c).2.id = (c + 1) % 2 ^ w ∧
    (identified.ctor w c).2.id = (identified.ctor w c).1 ∧
    (c + 1 < 2 ^ w → (identified.ctor w c).1 = c + 1 ∧ (identified.ctor w c).2.id = c + 1) ∧
    (0 < w → (identified.ctor w c).2.id ≠ c % 2 ^ w) := by
  refine ⟨rfl, rfl, rfl, ?_, ?_⟩
  · intro h
    simp [identified.ctor, identified.id, Nat.mod_eq_of_lt h]
  · intro hw
    have hm : 1 < 2 ^ w := Nat.one_lt_two_pow (by omega)
    simpa [identified.ctor, identified.id] using succ_mod_ne_self (2 ^ w) c hm

/-- At a 64-bit counter holding 41 the new instance gets 42 and the counter is 42. -/
theorem identified_ctor_takes_post_increment_witness :
    (identified.ctor 64 41).1 = 42 ∧ (identified.ctor 64 41).2.id = 42 :=
  (identified_ctor_takes_post_increment 64 41).2.2.2.1 (by decide)

/-- Claim C2, refuted as stated: on a 64-bit counter started at 0, the first object
gets `id() = 1`; after `2 ^ 64 - 2` further default constructions the counter has
reached its maximum, and the object constructed next gets `id() = 0`, which is not
greater than 1. -/
theorem later_id_not_greater_after_wrap :
    ∃ a b : Nat,
      (Process.fresh.exec 64 .construct_identified).newest_id = some a ∧
      (((Process.fresh.exec 64 .construct_identified).run 64
          (List.replicate (2 ^ 64 - 2) .construct_identified)).exec 64
          .construct_identified).newest_id = some b ∧
      ¬ a < b := by
  refine ⟨1, 0, by decide, ?_, by decide⟩
  rw [Process.newest_id_after_run 64 _ _ Statement.construct_identified rfl,
    constructions_replicate]
  have h1 : (Process.fresh.exec 64 .construct_identified).m_counter = 1 := by decide
  rw [h1]
  decide

/-- Claim C2, amended: for two instances default-constructed one after the other, with
any sequence of statements in between (copies, moves, renames, further
constructions), the `id()` given to the later one at construction is strictly greater
than the `id()` given to the earlier one at construction, provided the counter does
not wrap on the way: the counter before the earlier construction plus the number of
default constructions up to and including the later one stays below `2 ^ w`. -/
theorem later_id_greater_without_wrap (w : Nat) (s : Process) (first later : Statement)
    (between : List Statement) (hfirst : first.constructs = true)
    (hlater : later.constructs = true)
    (hroom : s.m_counter + constructions between + 2 < 2 ^ w) :
    ∃ a b : Nat,
      (s.exec w first).newest_id = some a ∧
      (((s.exec w first).run w between).exec w later).newest_id = some b ∧
      a < b := by
  have ha : (s.m_counter + 1) % 2 ^ w = s.m_counter + 1 := Nat.mod_eq_of_lt (by omega)
  have hc : (s.exec w first).m_counter = s.m_counter + 1 := by
    rw [Process.exec_counter, hfirst, if_pos rfl, ha]
  refine ⟨s.m_counter + 1, s.m_counter + constructions between + 2, ?_, ?_, by omega⟩
  · rw [Process.newest_id_exec_constructs w s first hfirst, ha]
  · rw [Process.newest_id_after_run w between _ later hlater, hc,
      Nat.mod_eq_of_lt (by omega)]
    congr 1
    omega

/-- From the fresh 64-bit counter, with a copy, a move, a rename and one more
construction in between, the two identities are 1 and 3. -/
theorem later_id_greater_without_wrap_witness :
    ∃ a b : Nat,
      (Process.fresh.exec 64 (.construct_named "p")).newest_id = some a ∧
      (((Process.fresh.exec 64 (.construct_named "p")).run 64
          [.copy_construct 0, .move_construct 0 "", .set_name 1 "q",
            .construct_identified]).exec 64 .construct_identified).newest_id = some b ∧
      a < b :=
  later_id_greater_without_wrap 64 Process.fresh (.construct_named "p")
    .construct_identified
    [.copy_construct 0, .move_construct 0 "", .set_name 1 "q", .construct_identified]
    rfl rfl (by decide)

/-- Claim C3, refuted as stated: in the counter state `2 ^ 64 - 2` of a 64-bit counter
(reached from 0 by that many default constructions), `a` receives `k = 2 ^ 64 - 1`, its
copy `b` has the same identity, and `c`, constructed right after, gets 0, which is not
`k + 1`. -/
theorem next_after_copy_wraps_at_maximum :
    (Process.fresh.run 64
      (List.replicate (2 ^ 64 - 2) Statement.construct_identified)).m_counter =
      2 ^ 64 - 2 ∧
    (Process.run 64 ⟨2 ^ 64 - 2, []⟩ [.construct_identified, .copy_construct 0,
      .construct_identified]).objects.map Instance.id = [2 ^ 64 - 1, 2 ^ 64 - 1, 0] ∧
    (0 : Nat) ≠ 2 ^ 64 - 1 + 1 := by
  refine ⟨?_, by decide, by decide⟩
  rw [Process.run_counter_of_lt 64 _ _
    (by rw [constructions_replicate]; decide), constructions_replicate]
  decide

/-- Claim C3, amended: from every counter state, when `a` is default-constructed and
receives identity `k`, `b` is copy-constructed from `a` and `c` is default-constructed
right after, then `b.id() = k`, `a.id()` is still `k` and `c.id() = (k + 1) mod 2 ^ w`,
not `(k + 2) mod 2 ^ w`: the copy consumes no counter value. `c.id()` is `k + 1` for
every `k` below the maximum `2 ^ w - 1`. The two default constructions may each be of
an `identified` or of a `named` with any prefix. -/
theorem copy_consumes_no_counter_value (w : Nat) (s : Process) (mk_a mk_c : Statement)
    (ha : mk_a.constructs = true) (hc : mk_c.constructs = true) :
    let n := s.objects.length
    let k := (s.m_counter + 1) % 2 ^ w
    let t := s.run w [mk_a, .copy_construct n, mk_c]
    (s.exec w mk_a).newest_id = some k ∧
    t.objects.length = n + 3 ∧
    t.objects[n]?.map Instance.id = some k ∧
    t.objects[n + 1]?.map Instance.id = some k ∧
    t.objects[n + 2]?.map Instance.id = some ((k + 1) % 2 ^ w) ∧
    (k + 1 < 2 ^ w → t.objects[n + 2]?.map Instance.id = some (k + 1)) ∧
    (0 < w → t.objects[n + 2]?.map Instance.id ≠ some ((k + 2) % 2 ^ w)) ∧
    t.m_counter = (k + 1) % 2 ^ w := by
  intro n k t
  obtain ⟨a, hsa, hida⟩ := Process.exec_constructs w s mk_a ha
  have hget : (s.exec w mk_a).objects[n]? = some a := by simp [hsa, n]
  obtain ⟨b, hsb, hidb⟩ := Process.exec_copy_construct w (s.exec w mk_a) n a hget
  obtain ⟨c, hsc, hidc⟩ :=
    Process.exec_constructs w ((s.exec w mk_a).exec w (.copy_construct n)) mk_c hc
  have ht : t = ((s.exec w mk_a).exec w (.copy_construct n)).exec w mk_c := rfl
  have hk : ((s.exec w mk_a).exec w (.copy_construct n)).m_counter = k := by
    rw [hsb, hsa]
  rw [hk] at hsc hidc
  have hobjs : t.objects = s.objects ++ [a, b, c] := by
    rw [ht, hsc, hsb, hsa]
    simp
  have hc2 : t.objects[n + 2]?.map Instance.id = some ((k + 1) % 2 ^ w) := by
    rw [hobjs, getElem?_append_length_add]
    simp [hidc]
  refine ⟨Process.newest_id_exec_constructs w s mk_a ha, by simp [hobjs, n], ?_, ?_, hc2,
    ?_, ?_, ?_⟩
  · have h0 := getElem?_append_length_add s.objects [a, b, c] 0
    rw [Nat.add_zero] at h0
    rw [hobjs, h0]
    simp [hida, k]
  · rw [hobjs, getElem?_append_length_add]
    simp [hidb, hida, k]
  · intro h
    rw [hc2, Nat.mod_eq_of_lt h]
  · intro hw
    rw [hc2]
    have hm : 1 < 2 ^ w := Nat.one_lt_two_pow (by omega)
    intro h
    exact succ_mod_ne_self (2 ^ w) (k + 1) hm (Option.some.inj h).symm
  · rw [ht, hsc]

/-- From the fresh 64-bit counter: `a` and its copy `b` both have `id() = 1` and the
next object has `id() = 2`. -/
theorem copy_consumes_no_counter_value_witness :
    (Process.fresh.run 64 [.construct_identified, .copy_construct 0,
      .construct_named "c"]).objects.map Instance.id = [1, 1, 2] ∧
    (Process.fresh.run 64 [.construct_identified, .copy_construct 0,
      .construct_named "c"]).objects[2]?.map Instance.id = some 2 :=
  ⟨by decide,
    (copy_consumes_no_counter_value 64 Process.fresh .construct_identified
      (.construct_named "c") rfl rfl).2.2.2.2.2.1 (by decide)⟩

/-- Claim C4: for every `identified` source with identity `k`, move construction and
move assignment both leave the destination with `id() = k` and the source with
`id() = 0`, whatever the destination of the assignment carried before, and neither
changes the shared counter. -/
theorem identified_move_transfers_and_resets (src dst_before : identified) :
    (identified.ctor_move src).1.id = src.id ∧
    (identified.ctor_move src).2.id = 0 ∧
    (identified.assign_move dst_before src).1.id = src.id ∧
    (identified.assign_move dst_before src).2.id = 0 ∧
    (∀ (w : Nat) (s : Process) (i : Nat) (residue : String),
      (s.exec w (.move_construct i residue)).m_counter = s.m_counter) ∧
    (∀ (w : Nat) (s : Process) (i j : Nat) (residue : String),
      (s.exec w (.move_assign i j residue)).m_counter = s.m_counter) := by
  refine ⟨rfl, rfl, rfl, rfl, ?_, ?_⟩
  · intro w s i residue
    simp [Process.exec_counter, Statement.constructs]
  · intro w s i j residue
    simp [Process.exec_counter, Statement.constructs]

/-- Claim C5: for every `named` source `a` with identity `k` and live name `n`, default
or overridden, move-constructing or move-assigning `b` from `a` gives `b.id() = k` and
`b.name() = n` and leaves `a` with `id() = 0` and `name()` equal to `moved-0`, whatever
prefix the source is left with and whatever `b` held before the assignment. -/
theorem named_move_transfers_and_vacates (residue : String) (a b_before : named) :
    (named.ctor_move residue a).1.id = a.id ∧
    (named.ctor_move residue a).1.name = a.name ∧
    (named.ctor_move residue a).2.id = 0 ∧
    (named.ctor_move residue a).2.name = "moved-0" ∧
    (named.assign_move residue b_before a).1.id = a.id ∧
    (named.assign_move residue b_before a).1.name = a.name ∧
    (named.assign_move residue b_before a).2.id = 0 ∧
    (named.assign_move residue b_before a).2.name = "moved-0" :=
  ⟨rfl, rfl, rfl, rfl, rfl, rfl, rfl, rfl⟩

/-- Claim C6: for every prefix `p`, the empty one included, and every counter state, a
freshly constructed `named` instance, which receives the identity `k` that the default
constructor of `identified` hands out in that state, has
`name() = p ++ "-" ++ decimal k` and `prefix() = p`; for the empty prefix the name is
`"-"` followed by the decimal identity. -/
theorem named_ctor_default_name (w c : Nat) (p : String) :
    (named.ctor w c p).2.id = (identified.ctor w c).2.id ∧
    (named.ctor w c p).2.name = p ++ "-" ++ decimal (named.ctor w c p).2.id ∧
    named.prefix (named.ctor w c p).2 = p ∧
    (named.ctor w c "").2.name = "-" ++ decimal (named.ctor w c "").2.id := by
  refine ⟨rfl, rfl, rfl, ?_⟩
  show "" ++ "-" ++ decimal _ = "-" ++ decimal _
  rw [String.empty_append]
  rfl

/-- Claim C7: for every `named` instance with identity `k` and prefix `p` and every
string `s`, after `name(s)`, preceded by any number of earlier `name(...)` calls, the
instance has `name() = s` while `prefix()` still returns `p` and `id()` still returns
`k`; for an instance constructed with prefix `p` that is `p` itself; and a `name(...)`
statement leaves the shared counter as it is. -/
theorem set_name_changes_name_only (x : named) (earlier : List String) (s : String) :
    ((earlier ++ [s]).foldl named.set_name x).name = s ∧
    named.prefix ((earlier ++ [s]).foldl named.set_name x) = named.prefix x ∧
    ((earlier ++ [s]).foldl named.set_name x).id = x.id ∧
    (∀ (w c : Nat) (p : String),
      named.prefix ((earlier ++ [s]).foldl named.set_name (named.ctor w c p).2) = p ∧
      ((earlier ++ [s]).foldl named.set_name (named.ctor w c p).2).id =
        (named.ctor w c p).2.id) ∧
    (∀ (w : Nat) (st : Process) (i : Nat),
      (st.exec w (.set_name i s)).m_counter = st.m_counter) := by
  have hframe := fun y : named => named.foldl_set_name_frame (earlier ++ [s]) y
  refine ⟨?_, (hframe x).2, ?_, ?_, ?_⟩
  · rw [List.foldl_append]
    rfl
  · show ((earlier ++ [s]).foldl named.set_name x).toidentified.id = x.toidentified.id
    rw [(hframe x).1]
  · intro w c p
    refine ⟨(hframe _).2, ?_⟩
    show (List.foldl named.set_name _ (earlier ++ [s])).toidentified.id = _
    rw [(hframe _).1]
    rfl
  · intro w st i
    simp [Process.exec_counter, Statement.constructs]

/-- Claim C8: from a fresh counter equal to 0 (of any width of at least two bits),
three `named` instances constructed with prefix `worker` get the names `worker-1`,
`worker-2`, `worker-3`; move-constructing a new instance from the second leaves the
second with `id() = 0` and `name()` equal to `moved-0`, gives the new instance
`id() = 2` and the name `worker-2`, and leaves the first and the third unchanged. -/
theorem worker_scenario (w : Nat) (hw : 2 ≤ w) (residue : String) :
    (Process.fresh.run w [.construct_named "worker", .construct_named "worker",
      .construct_named "worker"]).objects =
      [.of_named ⟨⟨1⟩, "worker-1", "worker"⟩, .of_named ⟨⟨2⟩, "worker-2", "worker"⟩,
        .of_named ⟨⟨3⟩, "worker-3", "worker"⟩] ∧
    (Process.fresh.run w [.construct_named "worker", .construct_named "worker",
      .construct_named "worker", .move_construct 1 residue]).objects =
      [.of_named ⟨⟨1⟩, "worker-1", "worker"⟩, .of_named ⟨⟨0⟩, "moved-0", residue⟩,
        .of_named ⟨⟨3⟩, "worker-3", "worker"⟩, .of_named ⟨⟨2⟩, "worker-2", "worker"⟩] ∧
    (Process.fresh.run w [.construct_named "worker", .construct_named "worker",
      .construct_named "worker", .move_construct 1 residue]).objects.map Instance.id =
      [1, 0, 3, 2] ∧
    (Process.fresh.run w [.construct_named "worker", .construct_named "worker",
      .construct_named "worker", .move_construct 1 residue]).objects.map Instance.name? =
      [some "worker-1", some "moved-0", some "worker-3", some "worker-2"] := by
  have h4 : 2 ^ 2 ≤ 2 ^ w := Nat.pow_le_pow_right (by decide) hw
  have e1 : (0 + 1) % 2 ^ w = 1 := Nat.mod_eq_of_lt (by omega)
  have e2 : (1 + 1) % 2 ^ w = 2 := Nat.mod_eq_of_lt (by omega)
  have e3 : (2 + 1) % 2 ^ w = 3 := Nat.mod_eq_of_lt (by omega)
  have d1 : "worker" ++ "-" ++ decimal 1 = "worker-1" := by decide
  have d2 : "worker" ++ "-" ++ decimal 2 = "worker-2" := by decide
  have d3 : "worker" ++ "-" ++ decimal 3 = "worker-3" := by decide
  have three : Process.fresh.run w [.construct_named "worker", .construct_named "worker",
      .construct_named "worker"] =
      ⟨3, [.of_named ⟨⟨1⟩, "worker-1", "worker"⟩, .of_named ⟨⟨2⟩, "worker-2", "worker"⟩,
        .of_named ⟨⟨3⟩, "worker-3", "worker"⟩]⟩ := by
    simp only [Process.run, List.foldl, Process.exec, Process.fresh, named.ctor,
      identified.ctor, identified.id, e1, e2, e3, d1, d2, d3, List.nil_append,
      List.cons_append]
  have four : Process.fresh.run w [.construct_named "worker", .construct_named "worker",
      .construct_named "worker", .move_construct 1 residue] =
      (Process.fresh.run w [.construct_named "worker", .construct_named "worker",
      .construct_named "worker"]).exec w (.move_construct 1 residue) :=
    Process.run_append w Process.fresh [.construct_named "worker", .construct_named "worker",
      .construct_named "worker"] [.move_construct 1 residue]
  have moved : (Process.fresh.run w [.construct_named "worker", .construct_named "worker",
      .construct_named "worker", .move_construct 1 residue]).objects =
      [.of_named ⟨⟨1⟩, "worker-1", "worker"⟩, .of_named ⟨⟨0⟩, "moved-0", residue⟩,
        .of_named ⟨⟨3⟩, "worker-3", "worker"⟩, .of_named ⟨⟨2⟩, "worker-2", "worker"⟩] := by
    rw [four, three]
    rfl
  refine ⟨by rw [three], moved, ?_, ?_⟩
  · rw [moved]
    rfl
  · rw [moved]
    rfl

/-- On a 64-bit counter the source of the move is left with the prefix `worker`, say. -/
theorem worker_scenario_witness :
    (Process.fresh.run 64 [.construct_named "worker", .construct_named "worker",
      .construct_named "worker", .move_construct 1 "worker"]).objects.map Instance.name? =
      [some "worker-1", some "moved-0", some "worker-3", some "worker-2"] :=
  (worker_scenario 64 (by decide) "worker").2.2.2

/-- Claim C9, refuted as stated: on a 64-bit counter started at 0, after
`2 ^ 64 - 1` default constructions the counter holds its maximum, and the next default
construction, of an `identified` or of a `named`, hands out `id() = 0`. -/
theorem zero_minted_after_wrap :
    ((Process.fresh.run 64 (List.replicate (2 ^ 64 - 1) .construct_identified)).exec 64
      .construct_identified).newest_id = some 0 ∧
    ((Process.fresh.run 64 (List.replicate (2 ^ 64 - 1) .construct_identified)).exec 64
      (.construct_named "worker")).newest_id = some 0 := by
  constructor
  · rw [Process.newest_id_after_run 64 _ _ Statement.construct_identified rfl,
      constructions_replicate]
    decide
  · rw [Process.newest_id_after_run 64 _ _ (Statement.construct_named "worker") rfl,
      constructions_replicate]
    decide

/-- Claim C9, amended: in every state reached from the initial counter 0 by a finite
sequence of statements with fewer than `2 ^ w - 1` default constructions among them, a
default construction of an `identified` or of a `named` gives the new instance an
`id()` different from 0 (it is the number of default constructions so far, this one
included). -/
theorem zero_not_minted_before_wrap (w : Nat) (prog : List Statement)
    (hroom : constructions prog + 1 < 2 ^ w) :
    (identified.ctor w (Process.fresh.run w prog).m_counter).2.id = constructions prog + 1 ∧
    (identified.ctor w (Process.fresh.run w prog).m_counter).2.id ≠ 0 ∧
    ∀ p : String,
      (named.ctor w (Process.fresh.run w prog).m_counter p).2.id = constructions prog + 1 ∧
      (named.ctor w (Process.fresh.run w prog).m_counter p).2.id ≠ 0 := by
  have hc : (Process.fresh.run w prog).m_counter = constructions prog := by
    rw [Process.run_counter_of_lt w prog Process.fresh
      (by simp only [Process.fresh]; omega)]
    simp [Process.fresh]
  have hid : (identified.ctor w (Process.fresh.run w prog).m_counter).2.id =
      constructions prog + 1 := by
    rw [hc]
    exact Nat.mod_eq_of_lt hroom
  refine ⟨hid, by omega, fun p => ?_⟩
  have hn : (named.ctor w (Process.fresh.run w prog).m_counter p).2.id =
      constructions prog + 1 := hid
  exact ⟨hn, by omega⟩

/-- After two constructions, a copy and a move on a 64-bit counter the next
`identified` gets 3. -/
theorem zero_not_minted_before_wrap_witness :
    (identified.ctor 64 (Process.fresh.run 64 [.construct_identified,
      .construct_named "p", .copy_construct 1, .move_construct 0 ""]).m_counter).2.id ≠ 0 :=
  (zero_not_minted_before_wrap 64 [.construct_identified, .construct_named "p",
    .copy_construct 1, .move_construct 0 ""] (by decide)).2.1

/-- Claim C10, refuted as stated: `2 ^ 64 + 1` default constructions on a 64-bit
counter started at 0 do not get pairwise distinct identities (the first and the last
both get 1); and one construction of a `named` at the counter value `c = 2 ^ 64 - 1`
hands out 0, not `c + 1`. -/
theorem minted_not_distinct_after_wrap :
    ¬ (Process.fresh.minted 64
        (List.replicate (2 ^ 64 + 1) Statement.construct_identified)).Nodup ∧
    Process.minted 64 ⟨2 ^ 64 - 1, []⟩ [.construct_named "p"] = [0] ∧
    Process.minted 64 ⟨2 ^ 64 - 1, []⟩ [.construct_named "p"] ≠
      List.range' (2 ^ 64 - 1 + 1) 1 := by
  refine ⟨?_, by decide, by decide⟩
  rw [Process.minted_constructions 64 _ _
    (fun st hst => by rw [List.eq_of_mem_replicate hst]; rfl), List.length_replicate]
  intro hnd
  have h := List.inj_on_of_nodup_map hnd (x := 0) (y := 2 ^ 64)
    (List.mem_range.mpr (by decide)) (List.mem_range.mpr (by decide)) (by decide)
  exact absurd h (by decide)

/-- Claim C10, amended: `identified` and `named` instances draw from one counter: for
every counter value `c` and every sequence of `n` default constructions, each of an
`identified` or of a `named` with any prefix, the identities handed out are
`c + 1, c + 2, ..., c + n` as `unsigned long` sums (modulo `2 ^ w`) in construction
order, whatever the type and prefix of each construction; they are the plain numbers
`c + 1, ..., c + n` when `c + n < 2 ^ w`, and pairwise distinct when `n ≤ 2 ^ w`. -/
theorem minted_from_one_counter (w : Nat) (s : Process) (prog : List Statement)
    (hall : ∀ st ∈ prog, st.constructs = true) :
    s.minted w prog =
      (List.range prog.length).map (fun i => (s.m_counter + 1 + i) % 2 ^ w) ∧
    (s.m_counter + prog.length < 2 ^ w →
      s.minted w prog = List.range' (s.m_counter + 1) prog.length) ∧
    (prog.length ≤ 2 ^ w → (s.minted w prog).Nodup) := by
  have hm := Process.minted_constructions w prog s hall
  refine ⟨hm, ?_, ?_⟩
  · intro hroom
    rw [hm, List.range'_eq_map_range]
    apply List.map_congr_left
    intro i hi
    have hi' := List.mem_range.mp hi
    exact Nat.mod_eq_of_lt (by omega)
  · intro hn
    rw [hm]
    apply List.Nodup.map_on _ (List.nodup_range _)
    intro i hi j hj hij
    exact add_mod_inj (2 ^ w) (s.m_counter + 1) i j
      (by have := List.mem_range.mp hi; omega) (by have := List.mem_range.mp hj; omega) hij

/-- Three constructions of mixed kinds from a 64-bit counter holding 7 get 8, 9, 10. -/
theorem minted_from_one_counter_witness :
    Process.minted 64 ⟨7, []⟩ [.construct_named "a", .construct_identified,
      .construct_named ""] = [8, 9, 10] :=
  (minted_from_one_counter 64 ⟨7, []⟩ [.construct_named "a", .construct_identified,
    .construct_named ""] (by decide)).2.1 (by decide)

/-- Claim C11, refuted as stated, in two ways. Three `named` are constructed with the
prefixes `a`, `b`, `c` and the first is copy-assigned to the second and to the third:
the second and the third then both carry the name `a-1`, although neither was
renamed, copied from or moved from. And on a 64-bit counter started at 0, a `named`
constructed with prefix `p` is named `p-1`, and so is a second one constructed with
prefix `p` after `2 ^ 64 - 1` further default constructions. -/
theorem default_names_collide :
    (Process.fresh.run 64 [.construct_named "a", .construct_named "b", .construct_named "c",
      .copy_assign 1 0, .copy_assign 2 0]).objects.map Instance.name? =
      [some "a-1", some "a-1", some "a-1"] ∧
    (Process.fresh.exec 64 (.construct_named "p")).newest_name = some "p-1" ∧
    (((Process.fresh.exec 64 (.construct_named "p")).run 64
        (List.replicate (2 ^ 64 - 1) .construct_identified)).exec 64
        (.construct_named "p")).newest_name = some "p-1" := by
  refine ⟨by decide, by decide, ?_⟩
  rw [Process.newest_name_after_run, constructions_replicate]
  have h1 : (Process.fresh.exec 64 (.construct_named "p")).m_counter = 1 := by decide
  rw [h1]
  decide

/-- Claim C11, amended: the default name `p ++ "-" ++ decimal k` is injective in the pair
`(p, k)`, so `named` instances with distinct identities carry distinct default names.
Two `named` instances constructed with prefixes, equal or not, with fewer than
`2 ^ w - 1` default constructions between them, get different names at construction;
and in every later state in which neither has been renamed, assigned to (by copy or by
move) or moved from, whatever else the program did (copying from them included), they
still carry those names, each `prefix ++ "-" ++ decimal (id())`, and the names
differ. -/
theorem default_names_distinct (w : Nat) (s : Process) (p q : String)
    (between : List Statement) (hclose : constructions between + 1 < 2 ^ w) :
    (∀ (p' q' : String) (j k : Nat),
      p' ++ "-" ++ decimal j = q' ++ "-" ++ decimal k → p' = q' ∧ j = k) ∧
    (∀ (c d : Nat), (named.ctor w c p).2.id ≠ (named.ctor w d q).2.id →
      (named.ctor w c p).2.name ≠ (named.ctor w d q).2.name) ∧
    (∃ a b : String,
      (s.exec w (.construct_named p)).newest_name = some a ∧
      (((s.exec w (.construct_named p)).run w between).exec w
        (.construct_named q)).newest_name = some b ∧
      a ≠ b) ∧
    (∀ later : List Statement,
      (∀ st ∈ between, st.modifies s.objects.length = false) →
      (∀ st ∈ later, st.modifies s.objects.length = false ∧
        st.modifies ((s.exec w (.construct_named p)).run w between).objects.length = false) →
      ∃ a b : named,
        ((((s.exec w (.construct_named p)).run w between).exec w
          (.construct_named q)).run w later).objects[s.objects.length]? =
          some (.of_named a) ∧
        ((((s.exec w (.construct_named p)).run w between).exec w
          (.construct_named q)).run w later).objects[
            ((s.exec w (.construct_named p)).run w between).objects.length]? =
          some (.of_named b) ∧
        s.objects.length ≠ ((s.exec w (.construct_named p)).run w between).objects.length ∧
        a.name = p ++ "-" ++ decimal a.id ∧
        b.name = q ++ "-" ++ decimal b.id ∧
        a.name ≠ b.name) := by
  refine ⟨default_name_injective, ?_, ?_, ?_⟩
  · intro c d hne hname
    exact hne (default_name_injective _ _ _ _ hname).2
  · refine ⟨_, _, Process.newest_name_exec_construct_named w s p, ?_,
      Process.default_names_ne_of_close w s p q between hclose⟩
    exact Process.newest_name_exec_construct_named w _ q
  · intro later hbetween hlater
    obtain ⟨h1get, h1len⟩ := Process.exec_construct_named_last w s p
    have h2len := Process.run_length_le w between (s.exec w (.construct_named p))
    have h2get : ((s.exec w (.construct_named p)).run w between).objects[s.objects.length]? =
        some (.of_named (named.ctor w s.m_counter p).2) := by
      rw [Process.run_frame w between _ _ hbetween (by omega)]
      exact h1get
    obtain ⟨h3get, h3len⟩ := Process.exec_construct_named_last w
      ((s.exec w (.construct_named p)).run w between) q
    have h3i : (((s.exec w (.construct_named p)).run w between).exec w
        (.construct_named q)).objects[s.objects.length]? =
        some (.of_named (named.ctor w s.m_counter p).2) := by
      rw [Process.exec_frame w _ (.construct_named q) _ rfl (by omega)]
      exact h2get
    refine ⟨(named.ctor w s.m_counter p).2,
      (named.ctor w ((s.exec w (.construct_named p)).run w between).m_counter q).2,
      ?_, ?_, by omega, rfl, rfl, ?_⟩
    · rw [Process.run_frame w later _ _ (fun st hst => (hlater st hst).1) (by omega)]
      exact h3i
    · rw [Process.run_frame w later _ _ (fun st hst => (hlater st hst).2) (by omega)]
      exact h3get
    · exact Process.default_names_ne_of_close w s p q between hclose

/-- From the fresh 64-bit counter: a `named` at position 0, a copy of it and a plain
`identified` in between, a second `named` with the same prefix at position 3, then a
rename of the copy and an assignment to it: positions 0 and 3 still differ in name. -/
theorem default_names_distinct_witness :
    ∃ a b : named,
      (Process.fresh.run 64 [.construct_named "job", .copy_construct 0,
        .construct_identified, .construct_named "job", .set_name 1 "x",
        .copy_assign 1 0]).objects[0]? = some (.of_named a) ∧
      (Process.fresh.run 64 [.construct_named "job", .copy_construct 0,
        .construct_identified, .construct_named "job", .set_name 1 "x",
        .copy_assign 1 0]).objects[3]? = some (.of_named b) ∧
      0 ≠ 3 ∧
      a.name = "job" ++ "-" ++ decimal a.id ∧
      b.name = "job" ++ "-" ++ decimal b.id ∧
      a.name ≠ b.name :=
  (default_names_distinct 64 Process.fresh "job" "job"
    [.copy_construct 0, .construct_identified] (by decide)).2.2.2
    [.set_name 1 "x", .copy_assign 1 0] (by decide) (by decide)

/-- Claim C12: for every `named` source `a`, copy construction and copy assignment give
the destination the same `id()`, `name()` and `prefix()` as `a` (the destination is
equal to `a` member by member), whatever the destination of the assignment carried
before; they leave `a` as it is and leave the shared counter unchanged. -/
theorem named_copy_is_exact_clone (a dst_before : named) :
    named.ctor_copy a = a ∧
    named.assign_copy dst_before a = a ∧
    ((named.ctor_copy a).id = a.id ∧ (named.ctor_copy a).name = a.name ∧
      named.prefix (named.ctor_copy a) = named.prefix a) ∧
    ((named.assign_copy dst_before a).id = a.id ∧
      (named.assign_copy dst_before a).name = a.name ∧
      named.prefix (named.assign_copy dst_before a) = named.prefix a) ∧
    (∀ (w : Nat) (s : Process) (src : Nat),
      (s.exec w (.copy_construct src)).m_counter = s.m_counter) ∧
    (∀ (w : Nat) (s : Process) (dst src : Nat),
      (s.exec w (.copy_assign dst src)).m_counter = s.m_counter) ∧
    (∀ (w : Nat) (s : Process) (src : Nat), s.objects[src]? = some (.of_named a) →
      (s.exec w (.copy_construct src)).objects = s.objects ++ [.of_named a] ∧
      (s.exec w (.copy_construct src)).objects[src]? = some (.of_named a)) ∧
    (∀ (w : Nat) (s : Process) (dst src : Nat),
      s.objects[dst]? = some (.of_named dst_before) → s.objects[src]? = some (.of_named a) →
      (s.exec w (.copy_assign dst src)).objects[dst]? = some (.of_named a) ∧
      (s.exec w (.copy_assign dst src)).objects[src]? = some (.of_named a)) := by
  refine ⟨rfl, rfl, ⟨rfl, rfl, rfl⟩, ⟨rfl, rfl, rfl⟩, ?_, ?_, ?_, ?_⟩
  · intro w s src
    simp [Process.exec_counter, Statement.constructs]
  · intro w s dst src
    simp [Process.exec_counter, Statement.constructs]
  · intro w s src ha
    rw [Process.exec_copy_construct_named w s src a ha]
    refine ⟨rfl, ?_⟩
    show (s.objects ++ [Instance.of_named a])[src]? = some (.of_named a)
    rw [List.getElem?_append_left (lt_length_of_getElem? _ _ _ ha)]
    exact ha
  · intro w s dst src hd ha
    rw [Process.exec_copy_assign_named w s dst src dst_before a hd ha]
    refine ⟨getElem?_set_same _ _ _ _ hd, ?_⟩
    show (s.objects.set dst (Instance.of_named a))[src]? = some (.of_named a)
    by_cases h : dst = src
    · subst h
      exact getElem?_set_same _ _ _ _ hd
    · rw [getElem?_set_other _ _ _ _ h]
      exact ha

/-- A renamed `named` is copy-assigned over a vacated one: destination and source are
then the same object member by member. -/
theorem named_copy_is_exact_clone_witness :
    (Process.exec 64 ⟨5, [.of_named ⟨⟨0⟩, "moved-0", "q"⟩, .of_named ⟨⟨4⟩, "custom", "p"⟩]⟩
      (.copy_assign 0 1)).objects[0]? = some (.of_named ⟨⟨4⟩, "custom", "p"⟩) ∧
    (Process.exec 64 ⟨5, [.of_named ⟨⟨0⟩, "moved-0", "q"⟩, .of_named ⟨⟨4⟩, "custom", "p"⟩]⟩
      (.copy_assign 0 1)).objects[1]? = some (.of_named ⟨⟨4⟩, "custom", "p"⟩) :=
  (named_copy_is_exact_clone ⟨⟨4⟩, "custom", "p"⟩ ⟨⟨0⟩, "moved-0", "q"⟩).2.2.2.2.2.2.2 64
    ⟨5, [.of_named ⟨⟨0⟩, "moved-0", "q"⟩, .of_named ⟨⟨4⟩, "custom", "p"⟩]⟩ 0 1 rfl rfl

/-- Claim C14, refuted as stated: on a 64-bit counter started at 0, after `2 ^ 64 - 1`
default constructions the counter holds `2 ^ 64 - 1`; the next default construction
takes it down to 0, its initial value; and the value 1 is handed out both by the
first default construction and by the one `2 ^ 64` constructions later. -/
theorem counter_resets_at_maximum :
    (Process.fresh.run 64
      (List.replicate (2 ^ 64 - 1) Statement.construct_identified)).m_counter =
      2 ^ 64 - 1 ∧
    ((Process.fresh.run 64 (List.replicate (2 ^ 64 - 1) Statement.construct_identified)).exec
      64 .construct_identified).m_counter = 0 ∧
    (Process.fresh.exec 64 .construct_identified).newest_id = some 1 ∧
    (((Process.fresh.exec 64 .construct_identified).run 64
        (List.replicate (2 ^ 64 - 1) .construct_identified)).exec 64
        .construct_identified).newest_id = some 1 := by
  have hc : (Process.fresh.run 64
      (List.replicate (2 ^ 64 - 1) Statement.construct_identified)).m_counter =
      2 ^ 64 - 1 := by
    rw [Process.run_counter_of_lt 64 _ _
      (by rw [constructions_replicate]; decide), constructions_replicate]
    decide
  refine ⟨hc, ?_, by decide, ?_⟩
  · rw [Process.exec_counter, hc]
    decide
  · rw [Process.newest_id_after_run 64 _ _ Statement.construct_identified rfl,
      constructions_replicate]
    have h1 : (Process.fresh.exec 64 .construct_identified).m_counter = 1 := by decide
    rw [h1]
    decide

/-- Claim C14, amended: among default construction, copy construction/assignment, move
construction/assignment and `name(newName)` (the accessors `id()`, `name()` and
`prefix()` are functions of the object alone), only default construction changes the
shared counter, and it raises it by exactly one modulo `2 ^ w`: by exactly one below
the maximum `2 ^ w - 1`. While the counter does not wrap it never decreases, and two
default constructions fewer than `2 ^ w` constructions apart never hand out the same
value. -/
theorem counter_changes_only_by_construction (w : Nat) (s : Process) :
    (∀ st : Statement, st.constructs = false → (s.exec w st).m_counter = s.m_counter) ∧
    (∀ st : Statement, st.constructs = true →
      (s.exec w st).m_counter = (s.m_counter + 1) % 2 ^ w) ∧
    (∀ st : Statement, st.constructs = true → s.m_counter + 1 < 2 ^ w →
      (s.exec w st).m_counter = s.m_counter + 1) ∧
    (∀ prog : List Statement, s.m_counter + constructions prog < 2 ^ w →
      (s.run w prog).m_counter = s.m_counter + constructions prog ∧
      s.m_counter ≤ (s.run w prog).m_counter) ∧
    (∀ (first later : Statement) (between : List Statement), first.constructs = true →
      later.constructs = true → constructions between + 1 < 2 ^ w →
      (s.exec w first).newest_id ≠
        (((s.exec w first).run w between).exec w later).newest_id) := by
  refine ⟨?_, ?_, ?_, ?_, ?_⟩
  · intro st h
    rw [Process.exec_counter, h]
    rfl
  · intro st h
    rw [Process.exec_counter, h]
    rfl
  · intro st h hlt
    rw [Process.exec_counter, h, if_pos rfl, Nat.mod_eq_of_lt hlt]
  · intro prog h
    have hc := Process.run_counter_of_lt w prog s h
    exact ⟨hc, by omega⟩
  · intro first later between hfirst hlater hclose
    exact Process.newest_id_ne_of_close w s first later between hfirst hlater hclose

/-- From a 64-bit counter holding 7, a program with two default constructions among
copies, moves and renames leaves the counter at 9. -/
theorem counter_changes_only_by_construction_witness :
    (Process.run 64 ⟨7, []⟩ [.construct_named "a", .copy_construct 0, .set_name 1 "b",
      .move_construct 0 "", .construct_identified, .move_assign 0 1 "",
      .copy_assign 1 2]).m_counter = 7 + 2 ∧
    7 ≤ (Process.run 64 ⟨7, []⟩ [.construct_named "a", .copy_construct 0, .set_name 1 "b",
      .move_construct 0 "", .construct_identified, .move_assign 0 1 "",
      .copy_assign 1 2]).m_counter :=
  (counter_changes_only_by_construction 64 ⟨7, []⟩).2.2.2.1
    [.construct_named "a", .copy_construct 0, .set_name 1 "b", .move_construct 0 "",
      .construct_identified, .move_assign 0 1 "", .copy_assign 1 2] (by decide)

/-- Claim C16: the vacated state is not terminal. A move leaves its source `v` with
`id() = 0` and the name `moved-0`; for every such `v` (indeed for every `v`) and every
live `named` `live` with identity `k` and name `n`, copy-assigning `live` to `v` gives
`v` the identity `k` and the name `n` and leaves `live` as it is, and move-assigning
`live` to `v` gives `v` the identity `k` and the name `n` and leaves `live` vacated in
turn. -/
theorem vacated_is_assignable (r r' : String) (a v live : named) :
    ((named.ctor_move r a).2.vacated ∧ (named.assign_move r v a).2.vacated) ∧
    ((named.assign_copy v live).id = live.id ∧ (named.assign_copy v live).name = live.name) ∧
    ((named.assign_move r' v live).1.id = live.id ∧
      (named.assign_move r' v live).1.name = live.name ∧
      (named.assign_move r' v live).2.vacated) ∧
    (∀ (w : Nat) (s : Process) (dst src : Nat), dst ≠ src →
      s.objects[dst]? = some (.of_named v) → s.objects[src]? = some (.of_named live) →
      ((s.exec w (.copy_assign dst src)).objects[dst]? = some (.of_named live) ∧
        (s.exec w (.copy_assign dst src)).objects[src]? = some (.of_named live)) ∧
      ((s.exec w (.move_assign dst src r')).objects[dst]? = some (.of_named live) ∧
        (s.exec w (.move_assign dst src r')).objects[src]? =
          some (.of_named ⟨⟨0⟩, "moved-0", r'⟩))) := by
  refine ⟨⟨⟨rfl, rfl⟩, ⟨rfl, rfl⟩⟩, ⟨rfl, rfl⟩, ⟨rfl, rfl, ⟨rfl, rfl⟩⟩, ?_⟩
  intro w s dst src hne hv hlive
  rw [Process.exec_copy_assign_named w s dst src v live hv hlive,
    Process.exec_move_assign_named w s dst src r' v live hv hlive]
  refine ⟨⟨getElem?_set_same _ _ _ _ hv, ?_⟩, ⟨?_, ?_⟩⟩
  · show (s.objects.set dst (Instance.of_named live))[src]? = some (.of_named live)
    rw [getElem?_set_other _ _ _ _ hne]
    exact hlive
  · show ((s.objects.set dst (Instance.of_named live)).set src _)[dst]? = _
    rw [getElem?_set_other _ _ _ _ (Ne.symm hne)]
    exact getElem?_set_same _ _ _ _ hv
  · show ((s.objects.set dst (Instance.of_named live)).set src _)[src]? = _
    apply getElem?_set_same _ _ (Instance.of_named live)
    rw [getElem?_set_other _ _ _ _ hne]
    exact hlive

/-- A vacated object at position 0 takes over the live object at position 1, which is
vacated in turn. -/
theorem vacated_is_assignable_witness :
    (Process.exec 64 ⟨2, [.of_named ⟨⟨0⟩, "moved-0", "a"⟩, .of_named ⟨⟨2⟩, "b-2", "b"⟩]⟩
      (.move_assign 0 1 "")).objects[0]? = some (.of_named ⟨⟨2⟩, "b-2", "b"⟩) ∧
    (Process.exec 64 ⟨2, [.of_named ⟨⟨0⟩, "moved-0", "a"⟩, .of_named ⟨⟨2⟩, "b-2", "b"⟩]⟩
      (.move_assign 0 1 "")).objects[1]? = some (.of_named ⟨⟨0⟩, "moved-0", ""⟩) :=
  ((vacated_is_assignable "" "" ⟨⟨1⟩, "a-1", "a"⟩ ⟨⟨0⟩, "moved-0", "a"⟩
    ⟨⟨2⟩, "b-2", "b"⟩).2.2.2 64
    ⟨2, [.of_named ⟨⟨0⟩, "moved-0", "a"⟩, .of_named ⟨⟨2⟩, "b-2", "b"⟩]⟩ 0 1 (by decide)
    rfl rfl).2

/-- Claim C17: a copy is independent of its original. When `a` and `b` are two objects
of a program, `b` a copy of `a` (after a copy construction or a copy assignment both
are equal member by member), calling `name(s)` on `b` leaves `a` as it is, name,
prefix and identity, and calling `name(s)` on `a`, or moving from `a` by construction
or by assignment to a third object, leaves `b` as it is. -/
theorem copy_independent_of_original (w : Nat) (t : Process) (i j : Nat) (a b : named)
    (str r : String) (hij : i ≠ j) (ha : t.objects[i]? = some (.of_named a))
    (hb : t.objects[j]? = some (.of_named b)) :
    (t.exec w (.set_name j str)).objects[i]? = some (.of_named a) ∧
    (t.exec w (.set_name i str)).objects[j]? = some (.of_named b) ∧
    (t.exec w (.move_construct i r)).objects[j]? = some (.of_named b) ∧
    (∀ d : Nat, d ≠ j → (t.exec w (.move_assign d i r)).objects[j]? = some (.of_named b)) ∧
    ((t.exec w (.copy_construct i)).objects[i]? = some (.of_named a) ∧
      (t.exec w (.copy_construct i)).objects[t.objects.length]? = some (.of_named a) ∧
      i ≠ t.objects.length) ∧
    ((t.exec w (.copy_assign j i)).objects[i]? = some (.of_named a) ∧
      (t.exec w (.copy_assign j i)).objects[j]? = some (.of_named a)) := by
  have hi := lt_length_of_getElem? _ _ _ ha
  have hj := lt_length_of_getElem? _ _ _ hb
  refine ⟨?_, ?_, ?_, ?_, ⟨?_, ?_, by omega⟩, ⟨?_, ?_⟩⟩
  · rw [Process.exec_set_name_frame w t j i str (Ne.symm hij)]
    exact ha
  · rw [Process.exec_set_name_frame w t i j str hij]
    exact hb
  · rw [Process.exec_move_construct_frame w t i j r hij hj]
    exact hb
  · intro d hd
    rw [Process.exec_move_assign_frame w t d i j r hd hij]
    exact hb
  · rw [Process.exec_copy_construct_named w t i a ha]
    show (t.objects ++ [Instance.of_named a])[i]? = _
    rw [List.getElem?_append_left hi]
    exact ha
  · rw [Process.exec_copy_construct_named w t i a ha]
    show (t.objects ++ [Instance.of_named a])[t.objects.length]? = _
    have h0 := getElem?_append_length_add t.objects [Instance.of_named a] 0
    rw [Nat.add_zero] at h0
    rw [h0]
    rfl
  · rw [Process.exec_copy_assign_named w t j i b a hb ha]
    show (t.objects.set j (Instance.of_named a))[i]? = _
    rw [getElem?_set_other _ _ _ _ (Ne.symm hij)]
    exact ha
  · rw [Process.exec_copy_assign_named w t j i b a hb ha]
    exact getElem?_set_same _ _ _ _ hb

/-- An original at position 0 and its copy at position 1: renaming the copy leaves the
original. -/
theorem copy_independent_of_original_witness :
    (Process.exec 64 ⟨1, [.of_named ⟨⟨1⟩, "a-1", "a"⟩, .of_named ⟨⟨1⟩, "a-1", "a"⟩]⟩
      (.set_name 1 "other")).objects[0]? = some (.of_named ⟨⟨1⟩, "a-1", "a"⟩) :=
  (copy_independent_of_original 64
    ⟨1, [.of_named ⟨⟨1⟩, "a-1", "a"⟩, .of_named ⟨⟨1⟩, "a-1", "a"⟩]⟩ 0 1
    ⟨⟨1⟩, "a-1", "a"⟩ ⟨⟨1⟩, "a-1", "a"⟩ "other" "" (by decide) rfl rfl).1

/-- Claim C18: the sentinel identity is not unique to one object. From the fresh counter
(of any width of at least one bit), after `a` is constructed, moved into `b`, and `b`
is moved into `c`, the two distinct objects `a` and `b` both report `id() = 0`, and as
`named` objects both report the name `moved-0`; likewise an object and its copy report
the same minted identity. -/
theorem sentinel_shared_after_moves (w : Nat) (hw : 1 ≤ w) (r r' : String) :
    (Process.fresh.run w [.construct_named "a", .move_construct 0 r,
      .move_construct 1 r']).objects =
      [.of_named ⟨⟨0⟩, "moved-0", r⟩, .of_named ⟨⟨0⟩, "moved-0", r'⟩,
        .of_named ⟨⟨1⟩, "a-1", "a"⟩] ∧
    (Process.fresh.run w [.construct_named "a", .move_construct 0 r,
      .move_construct 1 r']).objects.map Instance.id = [0, 0, 1] ∧
    (Process.fresh.run w [.construct_named "a", .move_construct 0 r,
      .move_construct 1 r']).objects.map Instance.name? =
      [some "moved-0", some "moved-0", some "a-1"] ∧
    (Process.fresh.run w [.construct_identified, .move_construct 0 r,
      .move_construct 1 r']).objects.map Instance.id = [0, 0, 1] ∧
    (Process.fresh.run w [.construct_identified, .copy_construct 0]).objects.map
      Instance.id = [1, 1] := by
  have h2 : 2 ^ 1 ≤ 2 ^ w := Nat.pow_le_pow_right (by decide) hw
  have e1 : (0 + 1) % 2 ^ w = 1 := Nat.mod_eq_of_lt (by omega)
  have d1 : "a" ++ "-" ++ decimal 1 = "a-1" := by decide
  have hnamed : (Process.fresh.run w [.construct_named "a", .move_construct 0 r,
      .move_construct 1 r']).objects =
      [.of_named ⟨⟨0⟩, "moved-0", r⟩, .of_named ⟨⟨0⟩, "moved-0", r'⟩,
        .of_named ⟨⟨1⟩, "a-1", "a"⟩] := by
    simp only [Process.run, List.foldl, Process.exec, Process.fresh, named.ctor,
      identified.ctor, identified.id, e1, d1, List.nil_append]
    rfl
  have hident : (Process.fresh.run w [.construct_identified, .move_construct 0 r,
      .move_construct 1 r']).objects =
      [.of_identified ⟨0⟩, .of_identified ⟨0⟩, .of_identified ⟨1⟩] := by
    simp only [Process.run, List.foldl, Process.exec, Process.fresh, identified.ctor, e1,
      List.nil_append]
    rfl
  have hcopy : (Process.fresh.run w [.construct_identified, .copy_construct 0]).objects =
      [.of_identified ⟨1⟩, .of_identified ⟨1⟩] := by
    simp only [Process.run, List.foldl, Process.exec, Process.fresh, identified.ctor, e1,
      List.nil_append]
    rfl
  refine ⟨hnamed, ?_, ?_, ?_, ?_⟩
  · rw [hnamed]
    rfl
  · rw [hnamed]
    rfl
  · rw [hident]
    rfl
  · rw [hcopy]
    rfl

/-- On a 64-bit counter, with the sources left with empty prefixes. -/
theorem sentinel_shared_after_moves_witness :
    (Process.fresh.run 64 [.construct_named "a", .move_construct 0 "",
      .move_construct 1 ""]).objects.map Instance.id = [0, 0, 1] :=
  (sentinel_shared_after_moves 64 (by decide) "" "").2.1
